import Mathlib

/-!
Verification of the generation-pipeline core of the `rust_coding_agent`
repository (`src/main.rs`), as described by its natural-language
specification.

The development shallowly embeds the Rust code:

* `clean_llm_output` (main.rs:261-277), the output sanitizer, together with a
  faithful model of Rust's `str::lines`, `str::trim`, `starts_with("```")`
  and `Vec::join("\n")`, all at the `List Char` level;
* the `Progress` record (main.rs:15-22) with each lock-guarded mutation of
  `run_main_loop` (main.rs:121-259) as an explicit state-update function;
* `run_main_loop` itself as a function from an environment (the outcomes of
  the fallible external calls: directory creation, the generation backend,
  parent-directory creation, file writes, and the history-artifact write) to
  the sequence of `Progress` states it produces, the in-memory history it
  accumulates, and its final state.  The pacing `sleep` and the prompt
  strings sent to the backend do not influence any modelled observable (the
  backend's behaviour is part of the environment), so they are absorbed
  into the environment.

Machine integers (`u32` fields of `Progress`) are modelled as `Nat`: every
value they take in the program is bounded by 9, far below `2^32`, so no
wrap-around can occur.
-/

namespace Agent

/-! ### Model of Rust `str::lines`

Rust's `lines()` splits on `'\n'`, does not report a final empty line when
the string ends with the separator, and strips one trailing `'\r'` from
every line that was `'\n'`-terminated (a final chunk without a terminator
keeps a trailing `'\r'`). -/

/-- Split a character list at every newline; the result is the list of
chunks between newlines (always nonempty, chunks contain no newline). -/
def splitNL : List Char → List (List Char)
  | [] => [[]]
  | c :: cs =>
    if c = '\n' then [] :: splitNL cs
    else
      match splitNL cs with
      | [] => [[c]]
      | l :: ls => (c :: l) :: ls

/-- Strip one trailing carriage return, if present. -/
def stripCR : List Char → List Char
  | [] => []
  | [c] => if c = '\r' then [] else [c]
  | c :: cs => c :: stripCR cs

/-- Post-process the chunks of `splitNL` the way Rust `lines()` does: every
chunk except the last was newline-terminated and loses one trailing
carriage return; the last chunk is dropped when empty (the final line
ending is optional) and kept verbatim otherwise. -/
def rustLinesChunks : List (List Char) → List (List Char)
  | [] => []
  | [c] => if c = [] then [] else [c]
  | c :: cs => stripCR c :: rustLinesChunks cs

/-- Model of Rust `str::lines` on a character list. -/
def rustLines (s : List Char) : List (List Char) :=
  rustLinesChunks (splitNL s)

/-- Model of `Vec<&str>::join("\n")`. -/
def joinNL : List (List Char) → List Char
  | [] => []
  | [l] => l
  | l :: ls => l ++ '\n' :: joinNL ls

/-- Model of Rust `str::trim` (drop whitespace from both ends). -/
def trimChars (l : List Char) : List Char :=
  ((l.dropWhile Char.isWhitespace).reverse.dropWhile Char.isWhitespace).reverse

/-- Model of `line.trim().starts_with("```")` (main.rs:267). -/
def isFenceLine (l : List Char) : Bool :=
  decide ((trimChars l).take 3 = ("```").data)

/-- Model of `line.trim().is_empty()` (main.rs:271). -/
def isBlankLine (l : List Char) : Bool :=
  (trimChars l).isEmpty

/-- The loop of `clean_llm_output` (main.rs:266-274): walk the lines with
the `in_code_block` flag, toggling it on fence-marker lines (which are
skipped), and pushing a line onto `cleaned` exactly when
`!in_code_block || !line.trim().is_empty()`. -/
def cleanLoop : List (List Char) → List (List Char) → Bool → List (List Char)
  | [], cleaned, _ => cleaned
  | line :: rest, cleaned, inCB =>
    if isFenceLine line then cleanLoop rest cleaned (!inCB)
    else if !inCB || !(isBlankLine line) then cleanLoop rest (cleaned ++ [line]) inCB
    else cleanLoop rest cleaned inCB

/-- The output sanitizer `clean_llm_output` (main.rs:261-277): split into
lines, run the fence-stripping loop, and re-join with newlines. -/
def clean_llm_output (s : String) : String :=
  String.mk (joinNL (cleanLoop (rustLines s.data) [] false))

/-- Modelled from the spec: the sanitizer contract stated directly as a
recursion on the line list (spec §4.1 and claim C3) — remove every line
whose trimmed content begins with the fence marker, toggling the fence
state on each such line; while the state is on, drop blank lines and keep
non-blank lines in order; while it is off, keep every line verbatim. -/
def cleanSpec : Bool → List (List Char) → List (List Char)
  | _, [] => []
  | b, line :: rest =>
    if isFenceLine line then cleanSpec (!b) rest
    else if b && isBlankLine line then cleanSpec b rest
    else line :: cleanSpec b rest

/-! ### The Progress record and the pipeline's state updates

Each block of `run_main_loop` that acquires the `Mutex` and mutates the
shared `Progress` record is embedded as one state-update function; a run's
trace is the list of record values observable after each such block. -/

/-- The shared `Progress` record (main.rs:15-22); `u32` fields as `Nat`. -/
structure Progress where
  status : String
  iteration : Nat
  max_iteration : Nat
  output : String
  completed : Bool
  deriving DecidableEq, Repr

/-- The derived `Progress::default()`: empty strings, zero counters,
`completed = false` (main.rs:15, `#[derive(Default)]`).  This is the value
at process start (main.rs:66) and the value the home handler resets to
(main.rs:33). -/
def Progress.defaultVal : Progress :=
  { status := "", iteration := 0, max_iteration := 0, output := "", completed := false }

/-- The home handler's reset (main.rs:29-34): the record is replaced by
`Progress::default()` regardless of its previous value. -/
def homeReset (_p : Progress) : Progress :=
  Progress.defaultVal

/-- One entry of the in-memory `history["iterations"]` array
(main.rs:223-228). -/
structure HistoryEntry where
  step : Nat
  file_name : String
  file_operation : String
  file_content : String
  deriving DecidableEq, Repr

/-- The fixed file specification (main.rs:152-162). -/
def components : List (String × String) :=
  [("app.py", "Create or update the main Flask application file (app.py) with necessary imports and app initialization."),
   ("config.py", "Create or update the configuration file (config.py) with any necessary settings."),
   ("models.py", "Create or update the models file (models.py) with any database models the application might need."),
   ("routes.py", "Create or update the routes file (routes.py) with all the necessary route handlers."),
   ("forms.py", "Create or update the forms file (forms.py) with any form classes the application might use."),
   ("templates/index.html", "Create or update the HTML template for the main page."),
   ("templates/layout.html", "Create or update the base layout HTML template."),
   ("static/style.css", "Create or update the CSS file for styling the application."),
   ("requirements.txt", "Create or update the requirements.txt file listing all necessary Python packages.")]

/-- The fixed output root `dir_name` (main.rs:125). -/
def dirName : String := "flask_app"

/-- The full path of a generated file, `app_dir.join(file_name)`
(main.rs:192). -/
def filePathOf (fname : String) : String :=
  dirName ++ "/" ++ fname

/-- The parent directory of a generated file, `file_path.parent()`
(main.rs:195); only its display string is observable (in error messages). -/
def parentOf (fname : String) : String :=
  match (fname.splitOn ("/")).dropLast with
  | [] => dirName
  | ps => dirName ++ "/" ++ String.intercalate ("/") ps

/-- Update on directory-creation failure (main.rs:130-133): append the
error to `output` and return (abort the run). -/
def dirCreateFailUpdate (e : String) (p : Progress) : Progress :=
  { p with output := p.output ++ ("Error creating directory: " ++ e ++ "\n") }

/-- The initial update (main.rs:138-144): `status = "running"`,
`iteration = 0`, `output` replaced (assignment, not append), and
`completed = false`.  Note `max_iteration` is not assigned. -/
def beginUpdate (p : Progress) : Progress :=
  { p with status := "running", iteration := 0,
           output := "Using application directory: " ++ dirName ++ "\n",
           completed := false }

/-- The per-step progress update (main.rs:177-181): `iteration = i + 1`
for 0-based loop index `i`, and the generating message appended. -/
def advanceUpdate (i : Nat) (fname : String) (p : Progress) : Progress :=
  { p with iteration := i + 1,
           output := p.output ++ ("\nGenerating or updating " ++ fname ++ "...\n") }

/-- Update when creating a file's parent directory fails (main.rs:196-200);
the step is then skipped (`continue`). -/
def mkdirFailUpdate (parent e : String) (p : Progress) : Progress :=
  { p with output := p.output ++ ("Error creating directory " ++ parent ++ ": " ++ e ++ "\n") }

/-- The `file_result` message of the write attempt (main.rs:205-212). -/
def fileResultMsg (fname : String) (writeErr : Option String) : String :=
  match writeErr with
  | none => "Created/Updated file: " ++ filePathOf fname
  | some e => "Error creating/updating file " ++ filePathOf fname ++ ": " ++ e

/-- The success-branch progress update (main.rs:215-220): the LLM output
and the file-operation result appended under one lock acquisition. -/
def stepOkUpdate (fname llm fileResult : String) (p : Progress) : Progress :=
  { p with output := p.output ++ ("LLM Output for " ++ fname ++ ":\n" ++ llm ++ "\n")
                              ++ ("File operation: " ++ fileResult ++ "\n") }

/-- The backend-failure branch (main.rs:230-234): append the error message
to `output`; nothing else changes. -/
def failUpdate (e : String) (p : Progress) : Progress :=
  { p with output := p.output ++ ("Error in LLM interaction: " ++ e ++ "\n") }

/-- Update when writing the history artifact fails (main.rs:240-246). -/
def historyWriteFailUpdate (e : String) (p : Progress) : Progress :=
  { p with output := p.output ++ ("Error writing history file: " ++ e ++ "\n") }

/-- The final update (main.rs:249-258): `status = "completed"`,
`completed = true`, completion messages appended. -/
def finalUpdate (p : Progress) : Progress :=
  { p with status := "completed", completed := true,
           output := p.output
             ++ ("\nFlask application generation/update completed! Files are in the '"
                  ++ dirName ++ "' directory.\n")
             ++ "Redirecting to main page in 3 seconds..." }

/-! ### The run environment and the run function

The pipeline's fallible external calls are parameters: their outcomes form
the environment of a run. -/

/-- Environmental outcomes of one step: the backend call
(`ollama.generate`, main.rs:187), the parent-directory creation
(`fs::create_dir_all`, main.rs:196) and the file write (`fs::write`,
main.rs:205).  Failures carry the error's display string. -/
structure StepEnv where
  genResult : Except String String
  mkdirErr : Option String
  writeErr : Option String

/-- Environmental outcomes of a whole run: whether the output root is
missing (`!app_dir.exists()`, main.rs:129), the outcome of creating it
(main.rs:130, consulted only when missing), each step's outcomes, and the
outcome of the history-artifact write (main.rs:240). -/
structure RunEnv where
  dirMissing : Bool
  createDirErr : Option String
  steps : Nat → StepEnv
  historyWriteErr : Option String

/-- One iteration of the `for` loop (main.rs:173-236) at 0-based index `i`
on component `c`, starting from record `p`: returns the states observed
after each lock-guarded update, the history entries appended, and the
final record. -/
def runStep (se : StepEnv) (i : Nat) (c : String × String) (p : Progress) :
    List Progress × List HistoryEntry × Progress :=
  let p1 := advanceUpdate i c.1 p
  match se.genResult with
  | Except.ok resp =>
    let llm := clean_llm_output resp
    match se.mkdirErr with
    | some e =>
      let p2 := mkdirFailUpdate (parentOf c.1) e p1
      ([p1, p2], [], p2)
    | none =>
      let fr := fileResultMsg c.1 se.writeErr
      let p2 := stepOkUpdate c.1 llm fr p1
      ([p1, p2], [{ step := i + 1, file_name := c.1, file_operation := fr,
                    file_content := llm }], p2)
  | Except.error e =>
    let p2 := failUpdate e p1
    ([p1, p2], [], p2)

/-- The `for` loop over the remaining components, starting at index `i`. -/
def runLoop (env : RunEnv) : Nat → List (String × String) → Progress →
    List Progress × List HistoryEntry × Progress
  | _, [], p => ([], [], p)
  | i, c :: cs, p =>
    let r := runStep (env.steps i) i c p
    let r' := runLoop env (i + 1) cs r.2.2
    (r.1 ++ r'.1, r.2.1 ++ r'.2.1, r'.2.2)

/-- Everything a run of `run_main_loop` produces: the trace of `Progress`
values after each lock-guarded update, the accumulated in-memory history,
the final record, and whether the run aborted at directory creation. -/
structure RunResult where
  trace : List Progress
  history : List HistoryEntry
  finalProgress : Progress
  abortedAtDir : Bool
  deriving Repr

/-- The part of `run_main_loop` after the output root is resolved
(main.rs:137-258): initial update, the loop, the history-artifact write,
and the final update. -/
def runAfterDir (env : RunEnv) (p0 : Progress) : RunResult :=
  let p1 := beginUpdate p0
  let r := runLoop env 0 components p1
  match env.historyWriteErr with
  | some e =>
    let q := historyWriteFailUpdate e r.2.2
    { trace := p1 :: (r.1 ++ [q, finalUpdate q]), history := r.2.1,
      finalProgress := finalUpdate q, abortedAtDir := false }
  | none =>
    { trace := p1 :: (r.1 ++ [finalUpdate r.2.2]), history := r.2.1,
      finalProgress := finalUpdate r.2.2, abortedAtDir := false }

/-- The pipeline `run_main_loop` (main.rs:121-259), given the run
environment and the `Progress` value `p0` at entry. -/
def run_main_loop (env : RunEnv) (p0 : Progress) : RunResult :=
  if env.dirMissing then
    match env.createDirErr with
    | some e =>
      let p1 := dirCreateFailUpdate e p0
      { trace := [p1], history := [], finalProgress := p1, abortedAtDir := true }
    | none => runAfterDir env p0
  else runAfterDir env p0

/-- The history entry one step contributes, if any (main.rs:222-228): an
entry exactly when the backend call and the parent-directory creation both
succeed; a failed file write still yields an entry (carrying the error
message as `file_operation`). -/
def stepHistOpt (se : StepEnv) (i : Nat) (c : String × String) : Option HistoryEntry :=
  match se.genResult with
  | Except.ok resp =>
    match se.mkdirErr with
    | some _ => none
    | none => some { step := i + 1, file_name := c.1,
                     file_operation := fileResultMsg c.1 se.writeErr,
                     file_content := clean_llm_output resp }
  | Except.error _ => none

/-- The text one step appends to `output` in total. -/
def stepChunk (se : StepEnv) (c : String × String) : String :=
  ("\nGenerating or updating " ++ c.1 ++ "...\n")
    ++ match se.genResult with
       | Except.ok resp =>
         match se.mkdirErr with
         | some e => "Error creating directory " ++ parentOf c.1 ++ ": " ++ e ++ "\n"
         | none => ("LLM Output for " ++ c.1 ++ ":\n" ++ clean_llm_output resp ++ "\n")
                     ++ ("File operation: " ++ fileResultMsg c.1 se.writeErr ++ "\n")
       | Except.error e => "Error in LLM interaction: " ++ e ++ "\n"

/-- The history contributed by the loop from index `i` over components
`cs`. -/
def histSpec (env : RunEnv) : Nat → List (String × String) → List HistoryEntry
  | _, [] => []
  | i, c :: cs => (stepHistOpt (env.steps i) i c).toList ++ histSpec env (i + 1) cs

/-- The text the loop from index `i` over components `cs` appends to
`output` in total. -/
def loopChunks (env : RunEnv) : Nat → List (String × String) → String
  | _, [] => ""
  | i, c :: cs => stepChunk (env.steps i) c ++ loopChunks env (i + 1) cs

/-- The `iteration` values observed during the loop: two states per step,
both showing the 1-based step index. -/
def iterPattern : Nat → Nat → List Nat
  | _, 0 => []
  | i, n + 1 => (i + 1) :: (i + 1) :: iterPattern (i + 1) n

/-- An environment in which the output root exists and every external call
succeeds, the backend returning a fixed small program text. -/
def envAllOk : RunEnv :=
  { dirMissing := false, createDirErr := none,
    steps := fun _ => { genResult := Except.ok ("print(1)\n"), mkdirErr := none,
                        writeErr := none },
    historyWriteErr := none }

/-- An environment in which only the second step's backend call fails. -/
def envOneFail : RunEnv :=
  { dirMissing := false, createDirErr := none,
    steps := fun k =>
      if k = 1 then
        { genResult := Except.error ("backend unreachable"), mkdirErr := none,
          writeErr := none }
      else
        { genResult := Except.ok ("x = 1\n"), mkdirErr := none, writeErr := none },
    historyWriteErr := none }

/-- An environment in which the output root is missing and cannot be
created. -/
def envDirFail : RunEnv :=
  { dirMissing := true, createDirErr := some ("permission denied"),
    steps := fun _ => { genResult := Except.ok (""), mkdirErr := none, writeErr := none },
    historyWriteErr := none }

/-- A step environment whose backend call fails. -/
def seFail : StepEnv :=
  { genResult := Except.error ("timeout"), mkdirErr := none, writeErr := none }

/-- An environment in which the first step's file write fails. -/
def envWriteFail : RunEnv :=
  { dirMissing := false, createDirErr := none,
    steps := fun k =>
      if k = 0 then
        { genResult := Except.ok ("import flask\n"), mkdirErr := none,
          writeErr := some ("disk full") }
      else
        { genResult := Except.ok ("y = 2\n"), mkdirErr := none, writeErr := none },
    historyWriteErr := none }

example : clean_llm_output ("a\n\n") = "a\n" := by decide
example : clean_llm_output (clean_llm_output ("a\n\n")) = "a" := by decide
example : clean_llm_output ("x\n```py\ncode\n\nmore\n```\ny") = "x\ncode\nmore\ny" := by
  decide

example :
    ((run_main_loop envAllOk Progress.defaultVal).trace.map Progress.iteration)
      = [0, 1, 1, 2, 2, 3, 3, 4, 4, 5, 5, 6, 6, 7, 7, 8, 8, 9, 9, 9] := by decide

example :
    ((run_main_loop envAllOk Progress.defaultVal).trace.map Progress.completed)
      = (List.replicate 19 false ++ [true]) := by decide

/-! ### Lemmas about the sanitizer -/

theorem cleanLoop_eq_append (ls : List (List Char)) :
    ∀ (acc : List (List Char)) (b : Bool), cleanLoop ls acc b = acc ++ cleanSpec b ls := by
  induction ls with
  | nil => intro acc b; simp [cleanLoop, cleanSpec]
  | cons l ls ih =>
    intro acc b
    by_cases hf : isFenceLine l
    · simp [cleanLoop, cleanSpec, hf, ih]
    · cases b <;> cases hb : isBlankLine l <;>
        simp [cleanLoop, cleanSpec, hf, hb, ih]

theorem splitNL_ne_nil (s : List Char) : splitNL s ≠ [] := by
  induction s with
  | nil => simp [splitNL]
  | cons c cs ih =>
    by_cases hc : c = '\n'
    · simp [splitNL, hc]
    · simp only [splitNL, hc, if_false]
      match h : splitNL cs with
      | [] => simp
      | l :: ls => simp

theorem mem_splitNL_no_newline (s : List Char) :
    ∀ l ∈ splitNL s, '\n' ∉ l := by
  induction s with
  | nil => intro l hl; simp [splitNL] at hl; simp [hl]
  | cons c cs ih =>
    intro l hl
    by_cases hc : c = '\n'
    · simp only [splitNL, hc, if_true, List.mem_cons] at hl
      rcases hl with hl | hl
      · simp [hl]
      · exact ih l hl
    · simp only [splitNL, hc, if_false] at hl
      match h : splitNL cs with
      | [] => exact absurd h (splitNL_ne_nil cs)
      | m :: ms =>
        rw [h] at hl
        rcases List.mem_cons.mp hl with hl | hl
        · subst hl
          intro hmem
          rcases List.mem_cons.mp hmem with h1 | h1
          · exact hc h1.symm
          · exact ih m (h ▸ List.mem_cons_self m ms) h1
        · exact ih l (h ▸ List.mem_cons_of_mem m hl)

theorem stripCR_sublist (l : List Char) : (stripCR l).Sublist l := by
  induction l with
  | nil => simp [stripCR]
  | cons c cs ih =>
    match cs with
    | [] =>
      by_cases hc : c = '\r' <;> simp [stripCR, hc]
    | c' :: cs' =>
      exact (List.Sublist.cons₂ c (by simpa [stripCR] using ih))

theorem mem_rustLinesChunks (L : List (List Char)) :
    ∀ l ∈ rustLinesChunks L, ∃ m ∈ L, l.Sublist m := by
  induction L with
  | nil => simp [rustLinesChunks]
  | cons c cs ih =>
    intro l hl
    cases cs with
    | nil =>
      by_cases hc : c = []
      · simp [rustLinesChunks, hc] at hl
      · simp only [rustLinesChunks, hc, if_false, List.mem_singleton] at hl
        exact ⟨c, by simp, by simp [hl]⟩
    | cons c' cs' =>
      simp only [rustLinesChunks, List.mem_cons] at hl
      rcases hl with hl | hl
      · exact ⟨c, by simp, hl ▸ stripCR_sublist c⟩
      · rcases ih l (by simpa [rustLinesChunks] using hl) with ⟨m, hm, hsub⟩
        exact ⟨m, List.mem_cons_of_mem c hm, hsub⟩

theorem mem_rustLines_no_newline (s : List Char) :
    ∀ l ∈ rustLines s, '\n' ∉ l := by
  intro l hl
  rcases mem_rustLinesChunks (splitNL s) l hl with ⟨m, hm, hsub⟩
  intro hmem
  exact mem_splitNL_no_newline s m hm (hsub.mem hmem)

theorem cleanSpec_sublist (ls : List (List Char)) :
    ∀ b, (cleanSpec b ls).Sublist ls := by
  induction ls with
  | nil => intro b; simp [cleanSpec]
  | cons l ls ih =>
    intro b
    by_cases hf : isFenceLine l
    · simpa [cleanSpec, hf] using (ih (!b)).cons l
    · by_cases hb : (b && isBlankLine l) = true
      · simpa [cleanSpec, hf, hb] using (ih b).cons l
      · simpa [cleanSpec, hf, hb] using (ih b).cons₂ l

theorem cleanSpec_no_fence (ls : List (List Char)) :
    ∀ b, ∀ l ∈ cleanSpec b ls, isFenceLine l = false := by
  induction ls with
  | nil => intro b l hl; simp [cleanSpec] at hl
  | cons x ls ih =>
    intro b l hl
    by_cases hf : isFenceLine x
    · exact ih (!b) l (by simpa [cleanSpec, hf] using hl)
    · by_cases hb : (b && isBlankLine x) = true
      · exact ih b l (by simpa [cleanSpec, hf, hb] using hl)
      · simp only [cleanSpec, hf, hb, if_false] at hl
        rcases List.mem_cons.mp hl with h1 | h1
        · subst h1; simpa using hf
        · exact ih b l h1

theorem splitNL_no_newline_id (l : List Char) (h : '\n' ∉ l) : splitNL l = [l] := by
  induction l with
  | nil => simp [splitNL]
  | cons c cs ih =>
    have hc : ¬ c = '\n' := fun hx => h (hx ▸ List.mem_cons_self c cs)
    have hcs : '\n' ∉ cs := fun hx => h (List.mem_cons_of_mem c hx)
    simp only [splitNL, hc, if_false, ih hcs]

theorem splitNL_append_newline (l t : List Char) (h : '\n' ∉ l) :
    splitNL (l ++ '\n' :: t) = l :: splitNL t := by
  induction l with
  | nil => simp [splitNL]
  | cons c cs ih =>
    have hc : ¬ c = '\n' := fun hx => h (hx ▸ List.mem_cons_self c cs)
    have hcs : '\n' ∉ cs := fun hx => h (List.mem_cons_of_mem c hx)
    simp only [List.cons_append, splitNL, hc, if_false, List.append_eq, ih hcs]

theorem splitNL_joinNL (L : List (List Char)) (hne : L ≠ [])
    (h : ∀ l ∈ L, '\n' ∉ l) : splitNL (joinNL L) = L := by
  induction L with
  | nil => exact absurd rfl hne
  | cons l ls ih =>
    match ls with
    | [] => simpa [joinNL] using splitNL_no_newline_id l (h l (by simp))
    | l' :: ls' =>
      have h1 : '\n' ∉ l := h l (by simp)
      have h2 : ∀ m ∈ l' :: ls', '\n' ∉ m := fun m hm => h m (List.mem_cons_of_mem l hm)
      simp only [joinNL, splitNL_append_newline l _ h1]
      rw [ih (by simp) h2]

theorem stripCR_eq_of_getLast (l : List Char) (h : l.getLast? ≠ some '\r') :
    stripCR l = l := by
  induction l with
  | nil => simp [stripCR]
  | cons c cs ih =>
    match cs with
    | [] =>
      have hc : ¬ c = '\r' := by simpa using h
      simp [stripCR, hc]
    | c' :: cs' =>
      have h' : (c' :: cs').getLast? ≠ some '\r' := by
        simpa [List.getLast?_cons_cons] using h
      simp only [stripCR, ih h']

theorem rustLinesChunks_id (L : List (List Char)) (h1 : L.getLast? ≠ some [])
    (h2 : ∀ l ∈ L.dropLast, l.getLast? ≠ some '\r') : rustLinesChunks L = L := by
  induction L with
  | nil => simp [rustLinesChunks]
  | cons c cs ih =>
    match cs with
    | [] =>
      have hc : ¬ c = [] := by simpa using h1
      simp [rustLinesChunks, hc]
    | c' :: cs' =>
      have hd : c.getLast? ≠ some '\r' := h2 c (by simp [List.dropLast])
      have h2' : ∀ l ∈ (c' :: cs').dropLast, l.getLast? ≠ some '\r' := by
        intro l hl
        exact h2 l (by simp [List.dropLast, hl])
      have h1' : (c' :: cs').getLast? ≠ some [] := by
        simpa [List.getLast?_cons_cons] using h1
      simp only [rustLinesChunks, stripCR_eq_of_getLast c hd, ih h1' h2']

theorem cleanSpec_id_of_no_fence (ls : List (List Char))
    (h : ∀ l ∈ ls, isFenceLine l = false) : cleanSpec false ls = ls := by
  induction ls with
  | nil => simp [cleanSpec]
  | cons l ls ih =>
    have hf : isFenceLine l = false := h l (by simp)
    have h' : ∀ m ∈ ls, isFenceLine m = false := fun m hm => h m (List.mem_cons_of_mem l hm)
    simp [cleanSpec, hf, ih h']

/-! ### Lemmas about the pipeline -/

theorem runStep_fields (se : StepEnv) (i : Nat) (c : String × String) (p : Progress) :
    (runStep se i c p).1.map Progress.completed = [p.completed, p.completed]
  ∧ (runStep se i c p).2.2.completed = p.completed
  ∧ (runStep se i c p).1.map Progress.status = [p.status, p.status]
  ∧ (runStep se i c p).2.2.status = p.status
  ∧ (runStep se i c p).1.map Progress.max_iteration = [p.max_iteration, p.max_iteration]
  ∧ (runStep se i c p).2.2.max_iteration = p.max_iteration
  ∧ (runStep se i c p).1.map Progress.iteration = [i + 1, i + 1]
  ∧ (runStep se i c p).2.2.iteration = i + 1
  ∧ (runStep se i c p).2.1 = (stepHistOpt se i c).toList
  ∧ (runStep se i c p).2.2.output = p.output ++ stepChunk se c := by
  rcases se with ⟨gr, me, we⟩
  cases gr <;> cases me <;>
    simp [runStep, stepHistOpt, stepChunk, advanceUpdate, mkdirFailUpdate,
          stepOkUpdate, failUpdate, String.append_assoc]

theorem replicate_two_cons {α : Type} (n : Nat) (a : α) :
    [a, a] ++ List.replicate (2 * n) a = List.replicate (2 * (n + 1)) a := by
  rw [show 2 * (n + 1) = 2 + 2 * n by ring, List.replicate_add]
  rfl

theorem runLoop_fields (env : RunEnv) (cs : List (String × String)) :
    ∀ (i : Nat) (p : Progress),
      (runLoop env i cs p).1.map Progress.completed
          = List.replicate (2 * cs.length) p.completed
    ∧ (runLoop env i cs p).2.2.completed = p.completed
    ∧ (runLoop env i cs p).1.map Progress.status
          = List.replicate (2 * cs.length) p.status
    ∧ (runLoop env i cs p).2.2.status = p.status
    ∧ (runLoop env i cs p).1.map Progress.max_iteration
          = List.replicate (2 * cs.length) p.max_iteration
    ∧ (runLoop env i cs p).2.2.max_iteration = p.max_iteration
    ∧ (runLoop env i cs p).1.map Progress.iteration = iterPattern i cs.length
    ∧ (runLoop env i cs p).2.1 = histSpec env i cs
    ∧ (runLoop env i cs p).2.2.output = p.output ++ loopChunks env i cs := by
  induction cs with
  | nil =>
    intro i p
    simp [runLoop, iterPattern, histSpec, loopChunks]
  | cons c cs ih =>
    intro i p
    obtain ⟨s1, s2, s3, s4, s5, s6, s7, s8, s9, s10⟩ :=
      runStep_fields (env.steps i) i c p
    obtain ⟨r1, r2, r3, r4, r5, r6, r7, r8, r9⟩ :=
      ih (i + 1) (runStep (env.steps i) i c p).2.2
    refine ⟨?_, ?_, ?_, ?_, ?_, ?_, ?_, ?_, ?_⟩
    · simp only [runLoop, List.map_append, s1, r1, s2, List.length_cons]
      exact replicate_two_cons cs.length p.completed
    · simp only [runLoop]; rw [r2, s2]
    · simp only [runLoop, List.map_append, s3, r3, s4, List.length_cons]
      exact replicate_two_cons cs.length p.status
    · simp only [runLoop]; rw [r4, s4]
    · simp only [runLoop, List.map_append, s5, r5, s6, List.length_cons]
      exact replicate_two_cons cs.length p.max_iteration
    · simp only [runLoop]; rw [r6, s6]
    · simp only [runLoop, List.map_append, s7, r7, List.length_cons, iterPattern]
      rfl
    · simp only [runLoop, s9, r8, histSpec]
    · simp only [runLoop]
      rw [r9, s10, loopChunks, String.append_assoc]

theorem stepHistOpt_some (se : StepEnv) (i : Nat) (c : String × String)
    (h : HistoryEntry) (hh : stepHistOpt se i c = some h) :
    h.step = i + 1 ∧ h.file_name = c.1 := by
  rcases se with ⟨gr, me, we⟩
  cases gr with
  | error e => simp [stepHistOpt] at hh
  | ok r =>
    cases me with
    | some e => simp [stepHistOpt] at hh
    | none =>
      simp only [stepHistOpt, Option.some.injEq] at hh
      simp [← hh]

theorem mem_histSpec (env : RunEnv) (cs : List (String × String)) :
    ∀ i h, h ∈ histSpec env i cs →
      ∃ k, k < cs.length
        ∧ stepHistOpt (env.steps (i + k)) (i + k) (cs.getD k ("", "")) = some h := by
  induction cs with
  | nil => intro i h hh; simp [histSpec] at hh
  | cons c cs ih =>
    intro i h hh
    simp only [histSpec] at hh
    rcases List.mem_append.mp hh with hh | hh
    · refine ⟨0, by simp, ?_⟩
      cases ho : stepHistOpt (env.steps i) i c with
      | none => rw [ho] at hh; simp at hh
      | some x =>
        rw [ho] at hh
        simp only [Option.toList_some, List.mem_singleton] at hh
        subst hh
        simpa using ho
    · rcases ih (i + 1) h hh with ⟨k, hk, hs⟩
      refine ⟨k + 1, by simp only [List.length_cons]; omega, ?_⟩
      have hidx : i + (k + 1) = (i + 1) + k := by omega
      rw [hidx, List.getD_cons_succ]
      exact hs

theorem histSpec_mem_of (env : RunEnv) (cs : List (String × String)) :
    ∀ i k h, k < cs.length →
      stepHistOpt (env.steps (i + k)) (i + k) (cs.getD k ("", "")) = some h →
      h ∈ histSpec env i cs := by
  induction cs with
  | nil => intro i k h hk hs; simp at hk
  | cons c cs ih =>
    intro i k h hk hs
    cases k with
    | zero =>
      simp only [Nat.add_zero, List.getD_cons_zero] at hs
      simp [histSpec, hs]
    | succ k =>
      have hk' : k < cs.length := by simp only [List.length_cons] at hk; omega
      have hidx : i + (k + 1) = (i + 1) + k := by omega
      rw [hidx, List.getD_cons_succ] at hs
      have hmem := ih (i + 1) k h hk' hs
      simp [histSpec, hmem]

theorem histSpec_pairwise (env : RunEnv) (cs : List (String × String)) :
    ∀ i, (histSpec env i cs).Pairwise (fun a b => a.step < b.step) := by
  induction cs with
  | nil => intro i; simp [histSpec]
  | cons c cs ih =>
    intro i
    simp only [histSpec]
    rw [List.pairwise_append]
    refine ⟨?_, ih (i + 1), ?_⟩
    · cases ho : stepHistOpt (env.steps i) i c <;> simp
    · intro a ha b hb
      have ha' : a.step = i + 1 := by
        cases ho : stepHistOpt (env.steps i) i c with
        | none => rw [ho] at ha; simp at ha
        | some x =>
          rw [ho] at ha
          simp only [Option.toList_some, List.mem_singleton] at ha
          subst ha
          exact (stepHistOpt_some _ _ _ _ ho).1
      rcases mem_histSpec env cs (i + 1) b hb with ⟨k, hk, hs⟩
      have hb' : b.step = (i + 1) + k + 1 := (stepHistOpt_some _ _ _ _ hs).1
      omega

theorem filterMap_cons_toList {α β : Type} (f : α → Option β) (a : α) (l : List α) :
    List.filterMap f (a :: l) = (f a).toList ++ List.filterMap f l := by
  cases h : f a <;> simp [List.filterMap_cons, h]

theorem histSpec_eq_filterMap (env : RunEnv) (cs : List (String × String)) :
    ∀ i, histSpec env i cs
      = (List.range cs.length).filterMap
          (fun k => stepHistOpt (env.steps (i + k)) (i + k) (cs.getD k ("", ""))) := by
  induction cs with
  | nil => intro i; simp [histSpec]
  | cons c cs ih =>
    intro i
    have hfun : (fun k => stepHistOpt (env.steps (i + k)) (i + k) ((c :: cs).getD k ("", "")))
          ∘ Nat.succ
        = fun k => stepHistOpt (env.steps ((i + 1) + k)) ((i + 1) + k) (cs.getD k ("", "")) := by
      funext k
      have hidx : i + (k + 1) = (i + 1) + k := by omega
      simp only [Function.comp_apply, List.getD_cons_succ, hidx]
    rw [histSpec, List.length_cons, List.range_succ_eq_map, filterMap_cons_toList,
        List.filterMap_map, hfun, ← ih (i + 1)]
    congr 1

theorem loopChunks_decomp (env : RunEnv) (cs : List (String × String)) :
    ∀ i k, k < cs.length →
      ∃ a b, loopChunks env i cs
        = a ++ stepChunk (env.steps (i + k)) (cs.getD k ("", "")) ++ b := by
  induction cs with
  | nil => intro i k hk; simp at hk
  | cons c cs ih =>
    intro i k hk
    cases k with
    | zero =>
      refine ⟨"", loopChunks env (i + 1) cs, ?_⟩
      rw [loopChunks]
      simp [String.empty_append]
    | succ k =>
      rcases ih (i + 1) k (by simp only [List.length_cons] at hk; omega) with ⟨a, b, hab⟩
      refine ⟨stepChunk (env.steps i) c ++ a, b, ?_⟩
      have hx : stepChunk (env.steps (i + (k + 1))) ((c :: cs).getD (k + 1) ("", ""))
          = stepChunk (env.steps ((i + 1) + k)) (cs.getD k ("", "")) := by
        have hidx : i + (k + 1) = (i + 1) + k := by omega
        simp only [List.getD_cons_succ, hidx]
      rw [loopChunks, hab, hx, String.append_assoc, String.append_assoc,
          String.append_assoc]

theorem run_eq_runAfterDir (env : RunEnv) (p0 : Progress)
    (h : env.dirMissing = false ∨ env.createDirErr = none) :
    run_main_loop env p0 = runAfterDir env p0 := by
  rcases h with h | h
  · simp [run_main_loop, h]
  · by_cases hd : env.dirMissing
    · simp [run_main_loop, hd, h]
    · simp [run_main_loop, hd]

theorem run_history_eq (env : RunEnv) (p0 : Progress)
    (h : env.dirMissing = false ∨ env.createDirErr = none) :
    (run_main_loop env p0).history = histSpec env 0 components := by
  rw [run_eq_runAfterDir env p0 h]
  have hh := (runLoop_fields env components 0 (beginUpdate p0)).2.2.2.2.2.2.2.1
  cases hw : env.historyWriteErr <;> simp [runAfterDir, hw, hh]

theorem run_final_completed (env : RunEnv) (p0 : Progress)
    (h : env.dirMissing = false ∨ env.createDirErr = none) :
    (run_main_loop env p0).finalProgress.completed = true := by
  rw [run_eq_runAfterDir env p0 h]
  cases hw : env.historyWriteErr <;> simp [runAfterDir, hw, finalUpdate]

theorem finalUpdate_output_extends (q : Progress) :
    ∃ t, (finalUpdate q).output = q.output ++ t :=
  ⟨("\nFlask application generation/update completed! Files are in the '"
      ++ dirName ++ "' directory.\n") ++ "Redirecting to main page in 3 seconds...",
   by simp [finalUpdate, String.append_assoc]⟩

theorem run_final_output (env : RunEnv) (p0 : Progress)
    (h : env.dirMissing = false ∨ env.createDirErr = none) :
    ∃ t, (run_main_loop env p0).finalProgress.output
      = ((beginUpdate p0).output ++ loopChunks env 0 components) ++ t := by
  rw [run_eq_runAfterDir env p0 h]
  have hout := (runLoop_fields env components 0 (beginUpdate p0)).2.2.2.2.2.2.2.2
  cases hw : env.historyWriteErr with
  | none =>
    obtain ⟨t, ht⟩ := finalUpdate_output_extends
      (runLoop env 0 components (beginUpdate p0)).2.2
    refine ⟨t, ?_⟩
    simp only [runAfterDir, hw]
    rw [ht, hout]
  | some e =>
    obtain ⟨t, ht⟩ := finalUpdate_output_extends
      (historyWriteFailUpdate e (runLoop env 0 components (beginUpdate p0)).2.2)
    refine ⟨("Error writing history file: " ++ e ++ "\n") ++ t, ?_⟩
    simp only [runAfterDir, hw]
    rw [ht]
    simp only [historyWriteFailUpdate]
    rw [hout, String.append_assoc, String.append_assoc]

/-! ### The claims -/

/-- C3: for every input, `clean_llm_output` equals the sanitizer contract
stated by the spec: every line whose trimmed content begins with the
triple-backtick marker is removed (toggling the fence state), blank lines
are dropped while the state is on, non-blank lines inside a fence are kept
in their original order, and every line outside a fence is kept verbatim,
blank ones included (`cleanSpec` is the contract's direct transcription). -/
theorem C3_sanitizer_refines_spec (s : String) :
    clean_llm_output s = String.mk (joinNL (cleanSpec false (rustLines s.data))) := by
  simp [clean_llm_output, cleanLoop_eq_append]

/-- C4 counterexample: on the input consisting of the line `a` followed by
a blank line, which contains no fence markers at all (so trivially no
fence markers remain after the first pass), applying `clean_llm_output`
twice differs from applying it once — the first pass yields `a` plus a
trailing newline, and the second pass drops that trailing newline, because
joining with a line separator loses the final blank line on re-parse. -/
theorem C4_counterexample :
    clean_llm_output (clean_llm_output ("a\n\n")) ≠ clean_llm_output ("a\n\n")
  ∧ ((rustLines (clean_llm_output ("a\n\n")).data).all (fun l => !(isFenceLine l))) = true := by
  decide

theorem clean_of_joinNL (L : List (List Char)) (hnn : ∀ l ∈ L, '\n' ∉ l)
    (hnf : ∀ l ∈ L, isFenceLine l = false)
    (h1 : L.getLast? ≠ some [])
    (h2 : ∀ l ∈ L.dropLast, l.getLast? ≠ some '\r') :
    clean_llm_output (String.mk (joinNL L)) = String.mk (joinNL L) := by
  by_cases hnil : L = []
  · subst hnil; decide
  · have hsplit : splitNL (joinNL L) = L := splitNL_joinNL L hnil hnn
    have hwhole : rustLines (joinNL L) = L := by
      rw [rustLines, hsplit]
      exact rustLinesChunks_id L h1 h2
    show String.mk (joinNL (cleanLoop (rustLines (String.mk (joinNL L)).data) [] false)) = _
    rw [show (String.mk (joinNL L)).data = joinNL L from rfl, hwhole,
        cleanLoop_eq_append, List.nil_append, cleanSpec_id_of_no_fence L hnf]

/-- C4 (amended): applying the sanitizer twice equals applying it once,
provided the first pass's kept-line sequence does not end with a blank
line and no kept line before the last ends with a carriage return (the
two situations in which re-parsing the joined output merges or rewrites
line boundaries); the counterexample `C4_counterexample` shows the
trailing-blank-line exclusion is necessary even when no fence markers
remain after the first pass. -/
theorem C4_idempotent_amended (s : String)
    (h1 : (cleanSpec false (rustLines s.data)).getLast? ≠ some [])
    (h2 : ∀ l ∈ (cleanSpec false (rustLines s.data)).dropLast, l.getLast? ≠ some '\r') :
    clean_llm_output (clean_llm_output s) = clean_llm_output s := by
  have hL : clean_llm_output s = String.mk (joinNL (cleanSpec false (rustLines s.data))) := by
    simp [clean_llm_output, cleanLoop_eq_append]
  have hnn : ∀ l ∈ cleanSpec false (rustLines s.data), '\n' ∉ l := fun l hl =>
    mem_rustLines_no_newline s.data l ((cleanSpec_sublist (rustLines s.data) false).subset hl)
  have hnf : ∀ l ∈ cleanSpec false (rustLines s.data), isFenceLine l = false :=
    cleanSpec_no_fence (rustLines s.data) false
  rw [hL]
  exact clean_of_joinNL _ hnn hnf h1 h2

/-- Witness for C4 (amended) at the concrete input `hello\nworld`,
discharging both hypotheses by computation. -/
theorem C4_idempotent_witness :
    ((cleanSpec false (rustLines ("hello\nworld").data)).getLast? ≠ some []
      ∧ clean_llm_output (clean_llm_output ("hello\nworld")) = clean_llm_output ("hello\nworld")) :=
  ⟨by decide, C4_idempotent_amended ("hello\nworld") (by decide) (by decide)⟩

/-- C1: in the concrete all-successful run from the process-start state
(`Progress::default()`), `iteration` is monotonically non-decreasing
(taking values 0, 1, 1, …, 9, 9, 9 over the trace), but the claimed bound
`iteration ≤ max_iteration` fails: `run_main_loop` never assigns
`max_iteration`, so it stays 0 for the whole run while `iteration` climbs
to 9 — the trace contains states with `max_iteration < iteration`. -/
theorem C1_iteration_exceeds_max_iteration :
    ((run_main_loop envAllOk Progress.defaultVal).trace.map Progress.iteration
        = [0, 1, 1, 2, 2, 3, 3, 4, 4, 5, 5, 6, 6, 7, 7, 8, 8, 9, 9, 9])
  ∧ ((run_main_loop envAllOk Progress.defaultVal).trace.map Progress.max_iteration).all
        (fun m => m == 0) = true
  ∧ ((run_main_loop envAllOk Progress.defaultVal).trace.any
        (fun p => decide (p.max_iteration < p.iteration))) = true := by
  decide

/-- C2: the begin update (main.rs:138-144) does not assign
`max_iteration` — it leaves the field unchanged for every starting state —
even though the file specification has 9 entries; consequently in a run
from the default state `max_iteration` is 0 at every point, never 9. -/
theorem C2_begin_leaves_max_iteration :
    (∀ p : Progress, (beginUpdate p).max_iteration = p.max_iteration)
  ∧ components.length = 9
  ∧ ((run_main_loop envAllOk Progress.defaultVal).trace.map Progress.max_iteration).all
        (fun m => m == 0) = true :=
  ⟨fun _ => rfl, by decide, by decide⟩

/-- C5: in any run whose output root is creatable, `completed` is false at
every state the run produces except the last, and true there (so it
becomes true exactly once, at the final update), and the run first
produced the begin state (`iteration 0`) and two states per step for all
9 steps of the file specification (iterations 1, 1, …, 9, 9) before that
final update, regardless of individual step success or failure. -/
theorem C5_completed_exactly_once (env : RunEnv) (p0 : Progress)
    (h : env.dirMissing = false ∨ env.createDirErr = none) :
    (∃ n, 19 ≤ n ∧ (run_main_loop env p0).trace.map Progress.completed
        = List.replicate n false ++ [true])
  ∧ ((run_main_loop env p0).trace.map Progress.iteration).take 19
      = [0, 1, 1, 2, 2, 3, 3, 4, 4, 5, 5, 6, 6, 7, 7, 8, 8, 9, 9] := by
  rw [run_eq_runAfterDir env p0 h]
  obtain ⟨l1, l2, l3, l4, l5, l6, l7, l8, l9⟩ := runLoop_fields env components 0 (beginUpdate p0)
  have hbc : (beginUpdate p0).completed = false := rfl
  have hbi : (beginUpdate p0).iteration = 0 := rfl
  have clen : components.length = 9 := rfl
  rw [clen] at l1 l7
  rw [hbc] at l1 l2
  have hfc : ∀ q : Progress, (finalUpdate q).completed = true := fun _ => rfl
  have hhc : ∀ (e : String) (q : Progress),
      (historyWriteFailUpdate e q).completed = q.completed := fun _ _ => rfl
  cases hw : env.historyWriteErr with
  | none =>
    constructor
    · refine ⟨19, le_refl 19, ?_⟩
      simp only [runAfterDir, hw, List.map_cons, List.map_append, List.map_nil]
      rw [l1, hbc, hfc]
      decide
    · simp only [runAfterDir, hw, List.map_cons, List.map_append, List.map_nil]
      rw [l7, hbi, ← List.cons_append,
          List.take_left' (show (0 :: iterPattern 0 9).length = 19 by decide)]
      decide
  | some e =>
    constructor
    · refine ⟨20, by omega, ?_⟩
      simp only [runAfterDir, hw, List.map_cons, List.map_append, List.map_nil]
      rw [l1, hbc, hfc, hhc, l2]
      decide
    · simp only [runAfterDir, hw, List.map_cons, List.map_append, List.map_nil]
      rw [l7, hbi, ← List.cons_append,
          List.take_left' (show (0 :: iterPattern 0 9).length = 19 by decide)]
      decide

/-- Witness for C5 at a concrete all-successful run from the default
state. -/
theorem C5_completed_exactly_once_witness :
    ((run_main_loop envAllOk Progress.defaultVal).trace.map Progress.iteration).take 19
      = [0, 1, 1, 2, 2, 3, 3, 4, 4, 5, 5, 6, 6, 7, 7, 8, 8, 9, 9] :=
  (C5_completed_exactly_once envAllOk Progress.defaultVal (Or.inl rfl)).2

/-- C6: in any run whose output root is creatable, the in-memory history
is exactly one entry per step whose backend call and parent-directory
creation succeeded, in step order (strictly increasing 1-based `step`
fields), each entry's `file_name` being the file-spec entry at its
position; a step whose backend call failed contributes no entry, its
error description is appended to the output (inside the fixed error
message), and the run still continues to completion. -/
theorem C6_history_characterization (env : RunEnv) (p0 : Progress)
    (h : env.dirMissing = false ∨ env.createDirErr = none) :
    (run_main_loop env p0).history
        = (List.range components.length).filterMap
            (fun k => stepHistOpt (env.steps k) k (components.getD k ("", "")))
  ∧ (run_main_loop env p0).history.Pairwise (fun a b => a.step < b.step)
  ∧ (∀ x ∈ (run_main_loop env p0).history,
        1 ≤ x.step ∧ x.step ≤ components.length
          ∧ x.file_name = (components.getD (x.step - 1) ("", "")).1)
  ∧ (∀ k e, k < components.length → (env.steps k).genResult = Except.error e →
        (∀ x ∈ (run_main_loop env p0).history, x.step ≠ k + 1)
          ∧ ∃ a b, (run_main_loop env p0).finalProgress.output
              = a ++ ("Error in LLM interaction: " ++ e ++ "\n") ++ b)
  ∧ (run_main_loop env p0).finalProgress.completed = true := by
  have hh := run_history_eq env p0 h
  have clen : components.length = 9 := rfl
  refine ⟨?_, ?_, ?_, ?_, run_final_completed env p0 h⟩
  · rw [hh]
    have hfm := histSpec_eq_filterMap env components 0
    simpa using hfm
  · rw [hh]
    exact histSpec_pairwise env components 0
  · intro x hx
    rw [hh] at hx
    rcases mem_histSpec env components 0 x hx with ⟨k, hk, hs⟩
    obtain ⟨hstep, hname⟩ := stepHistOpt_some _ _ _ _ hs
    rw [clen] at hk
    refine ⟨by omega, by omega, ?_⟩
    have hk' : x.step - 1 = k := by omega
    rw [hk']
    exact hname
  · intro k e hk hge
    constructor
    · intro x hx
      rw [hh] at hx
      rcases mem_histSpec env components 0 x hx with ⟨k', hk', hs⟩
      obtain ⟨hstep, _⟩ := stepHistOpt_some _ _ _ _ hs
      intro hxk
      have hkk : k' = k := by omega
      subst hkk
      rw [Nat.zero_add] at hs
      simp [stepHistOpt, hge] at hs
    · obtain ⟨t, ht⟩ := run_final_output env p0 h
      rcases loopChunks_decomp env components 0 k hk with ⟨a, b, hab⟩
      rw [Nat.zero_add] at hab
      have hchunk : stepChunk (env.steps k) (components.getD k ("", ""))
          = ("\nGenerating or updating " ++ (components.getD k ("", "")).1 ++ "...\n")
            ++ ("Error in LLM interaction: " ++ e ++ "\n") := by
        simp [stepChunk, hge]
      refine ⟨((beginUpdate p0).output ++ a)
                ++ ("\nGenerating or updating " ++ (components.getD k ("", "")).1 ++ "...\n"),
              b ++ t, ?_⟩
      rw [ht, hab, hchunk]
      simp [String.append_assoc]

/-- Witness for C6: with step 2's backend failing, the history holds the
step fields 1, 3, 4, …, 9 — no entry for the failed step. -/
theorem C6_history_characterization_witness :
    (run_main_loop envOneFail Progress.defaultVal).history.map HistoryEntry.step
      = [1, 3, 4, 5, 6, 7, 8, 9] := by
  have hc := C6_history_characterization envOneFail Progress.defaultVal (Or.inl rfl)
  rw [hc.1]
  decide

/-- C7: if the output root is missing and creating it fails, the run
aborts before any step: the single state update appends the error to
`output`, the history stays empty, and status, iteration, max_iteration
and completed are all left exactly as they were at entry (in particular
`completed` never becomes true in that run). -/
theorem C7_dir_create_failure_aborts (env : RunEnv) (p0 : Progress) (e : String)
    (h1 : env.dirMissing = true) (h2 : env.createDirErr = some e) :
    (run_main_loop env p0).trace = [dirCreateFailUpdate e p0]
  ∧ (run_main_loop env p0).history = []
  ∧ (run_main_loop env p0).finalProgress.status = p0.status
  ∧ (run_main_loop env p0).finalProgress.completed = p0.completed
  ∧ (run_main_loop env p0).finalProgress.iteration = p0.iteration
  ∧ (run_main_loop env p0).finalProgress.max_iteration = p0.max_iteration
  ∧ (run_main_loop env p0).finalProgress.output
      = p0.output ++ ("Error creating directory: " ++ e ++ "\n")
  ∧ (run_main_loop env p0).abortedAtDir = true := by
  simp [run_main_loop, h1, h2, dirCreateFailUpdate]

/-- Witness for C7 at a concrete failing environment. -/
theorem C7_dir_create_failure_witness :
    (run_main_loop envDirFail Progress.defaultVal).finalProgress.completed
      = Progress.defaultVal.completed :=
  (C7_dir_create_failure_aborts envDirFail Progress.defaultVal
      ("permission denied") rfl rfl).2.2.2.1

/-- C8 counterexample: the home handler resets the record to the derived
`Progress::default()`, whose `status` is the empty string — not the
literal `idle` the claim names (the `output` part of the claim does
hold: it resets to empty). -/
theorem C8_reset_status_not_idle :
    (homeReset { status := "completed", iteration := 9, max_iteration := 0,
                 output := "done", completed := true }).status ≠ "idle"
  ∧ (homeReset { status := "completed", iteration := 9, max_iteration := 0,
                 output := "done", completed := true }).status = ""
  ∧ (homeReset { status := "completed", iteration := 9, max_iteration := 0,
                 output := "done", completed := true }).output = "" :=
  ⟨by decide, rfl, rfl⟩

/-- C8 (amended): at process start and after each reset the record is the
derived default: `status` is the empty string (the literal `idle` never
appears in the program) and `output` is empty. -/
theorem C8_reset_fields :
    Progress.defaultVal.status = "" ∧ Progress.defaultVal.output = ""
  ∧ ∀ p : Progress, homeReset p = Progress.defaultVal :=
  ⟨rfl, rfl, fun _ => rfl⟩

/-- C9: the backend-failure branch appends its error message to `output`
and leaves every other field of the record unchanged; within a step whose
backend call fails, the only updates are the advance update and that
append, and no history entry is produced. -/
theorem C9_fail_frame (p : Progress) (e : String) (se : StepEnv) (i : Nat)
    (c : String × String) (h : se.genResult = Except.error e) :
    (failUpdate e p).status = p.status
  ∧ (failUpdate e p).iteration = p.iteration
  ∧ (failUpdate e p).max_iteration = p.max_iteration
  ∧ (failUpdate e p).completed = p.completed
  ∧ (failUpdate e p).output = p.output ++ ("Error in LLM interaction: " ++ e ++ "\n")
  ∧ (runStep se i c p).1 = [advanceUpdate i c.1 p, failUpdate e (advanceUpdate i c.1 p)]
  ∧ (runStep se i c p).2.1 = [] := by
  refine ⟨rfl, rfl, rfl, rfl, rfl, ?_, ?_⟩ <;> simp [runStep, h]

/-- Witness for C9 at a concrete failed step. -/
theorem C9_fail_frame_witness :
    (runStep seFail 0 ("app.py", "x") Progress.defaultVal).2.1 = [] :=
  (C9_fail_frame Progress.defaultVal ("timeout") seFail 0 ("app.py", "x")
      rfl).2.2.2.2.2.2

/-- C10: when a step's backend call succeeds but the file write fails, the
step still records a history entry whose `file_operation` is the failure
message naming the path and the I/O error and whose `file_content` is the
sanitized backend output, and the run still completes. -/
theorem C10_write_failure_still_records (env : RunEnv) (p0 : Progress) (k : Nat)
    (r e : String)
    (h : env.dirMissing = false ∨ env.createDirErr = none)
    (hk : k < components.length)
    (hg : (env.steps k).genResult = Except.ok r)
    (hm : (env.steps k).mkdirErr = none)
    (hw : (env.steps k).writeErr = some e) :
    ({ step := k + 1, file_name := (components.getD k ("", "")).1,
       file_operation := "Error creating/updating file "
           ++ filePathOf (components.getD k ("", "")).1 ++ ": " ++ e,
       file_content := clean_llm_output r } : HistoryEntry)
      ∈ (run_main_loop env p0).history
  ∧ (run_main_loop env p0).finalProgress.completed = true := by
  refine ⟨?_, run_final_completed env p0 h⟩
  rw [run_history_eq env p0 h]
  refine histSpec_mem_of env components 0 k _ hk ?_
  rw [Nat.zero_add]
  simp [stepHistOpt, hg, hm, hw, fileResultMsg]

/-- Witness for C10 at a concrete run whose first write fails. -/
theorem C10_write_failure_witness :
    ({ step := 1, file_name := "app.py",
       file_operation := "Error creating/updating file flask_app/app.py: disk full",
       file_content := clean_llm_output ("import flask\n") } : HistoryEntry)
      ∈ (run_main_loop envWriteFail Progress.defaultVal).history :=
  (C10_write_failure_still_records envWriteFail Progress.defaultVal 0
      ("import flask\n") ("disk full") (Or.inl rfl) (by decide) rfl rfl rfl).1

end Agent
